import Mathlib

/-!
Verification of the content aggregation and caching engine of `content.py`
(repo2prompt).  The Python functions are shallowly embedded: JSON/Python
values become the inductive `PyVal`, the HTTP layer becomes an oracle
`String → Except Nat PyVal` (a `.error s` models `response.raise_for_status()`
raising for HTTP status `s`), the on-disk cache directory becomes an
association list from file names to stored JSON values, and the unbounded
`while` loop of `fetch_repo_content` is given explicit fuel (result `none`
means the loop was not finished within the fuel; every theorem supplies
enough fuel).  Exceptions are modelled with `Except`: `PyErr.httpStatus`
stands for `requests.exceptions.RequestException`, `PyErr.typeError` /
`PyErr.keyError` / `PyErr.attributeError` for the builtin exception types
raised by subscripting and attribute access.
-/

namespace Repo2Prompt

/-- A Python/JSON value, as far as `content.py` manipulates them:
strings, lists and (string-keyed) dicts. -/
inductive PyVal where
  | str (s : String)
  | list (xs : List PyVal)
  | dict (kvs : List (String × PyVal))

/-- The exception kinds that can escape the embedded functions.
`httpStatus s` models `requests.exceptions.RequestException` (raised by
`response.raise_for_status()` for a non-success HTTP status `s`); the
others model Python's `TypeError`, `KeyError` and `AttributeError`. -/
inductive PyErr where
  | httpStatus (code : Nat)
  | typeError
  | keyError (key : String)
  | attributeError
deriving DecidableEq

/-- The keys of a dict, in insertion order, as Python string values
(what `iter(d)` / `list.extend(d)` produces for a dict `d`). -/
def pyKeys (kvs : List (String × PyVal)) : List PyVal :=
  kvs.map (fun kv => PyVal.str kv.1)

/-- Iterating a Python value: a list yields its elements, a dict its keys,
a string its one-character substrings.  This is what
`all_items.extend(items)` and `for item in …` run over. -/
def pyIterate : PyVal → List PyVal
  | .str s => s.data.map (fun ch => PyVal.str (String.mk [ch]))
  | .list xs => xs
  | .dict kvs => pyKeys kvs

/-- `len(v)`: number of characters, elements, or keys. -/
def pyLen : PyVal → Nat
  | .str s => s.data.length
  | .list xs => xs.length
  | .dict kvs => kvs.length

/-- The subscript `v[k]` for a string key `k`: a dict looks the key up
(`KeyError` when absent), every other value raises `TypeError`
("indices must be integers"), exactly as Python does. -/
def pyGetItem : PyVal → String → Except PyErr PyVal
  | .dict kvs, k =>
      match List.lookup k kvs with
      | some v => Except.ok v
      | none => Except.error (PyErr.keyError k)
  | .str _, _ => Except.error PyErr.typeError
  | .list _, _ => Except.error PyErr.typeError

mutual
/-- Python `==` on the modelled values.  (Dict comparison is modelled
structurally, i.e. order sensitive; the embedded code only ever compares
the string-valued `sha` fields, where this coincides with Python.) -/
def pyEq : PyVal → PyVal → Bool
  | .str a, .str b => a == b
  | .list a, .list b => pyEqList a b
  | .dict a, .dict b => pyEqKVs a b
  | _, _ => false

def pyEqList : List PyVal → List PyVal → Bool
  | [], [] => true
  | a :: as, b :: bs => pyEq a b && pyEqList as bs
  | _, _ => false

def pyEqKVs : List (String × PyVal) → List (String × PyVal) → Bool
  | [], [] => true
  | (ka, va) :: as, (kb, vb) :: bs => ka == kb && pyEq va vb && pyEqKVs as bs
  | _, _ => false
end

/-- `base64.b64decode(v).decode('utf-8')` is only defined on strings; on
any other value the call raises `TypeError`.  The actual base64/UTF-8
decoding is an external library routine and is passed in as `b64`. -/
def pyB64String (b64 : String → Except PyErr String) : PyVal → Except PyErr String
  | .str s => b64 s
  | _ => Except.error PyErr.typeError

/-- The cache directory: file name (within the fixed cache directory)
to stored JSON payload.  A write prepends, so `List.lookup` sees the most
recent write first — whole-file overwrite semantics. -/
def CacheMap := List (String × PyVal)

/-- Writing (or overwriting) one cache file. -/
def cacheWrite (cache : CacheMap) (k : String) (v : PyVal) : CacheMap :=
  (k, v) :: cache

/-- `url.replace('/', '_')`: single-character replacement is a character map. -/
def replaceSlash (s : String) : String :=
  String.mk (s.data.map (fun c => if c == '/' then '_' else c))

/-- The cache file name for a request URL:
`f"{url.replace('/', '_')}.json"` (line 25 of `content.py`). -/
def cacheFileName (url : String) : String :=
  replaceSlash url ++ ".json"

/-- `f"{url}?per_page={per_page}&page={page}"` (line 37). -/
def pagedUrl (url : String) (perPage page : Nat) : String :=
  url ++ "?per_page=" ++ Nat.repr perPage ++ "&page=" ++ Nat.repr page

/-- The `while True` pagination loop of `fetch_repo_content`
(lines 34–44): request page `page`, extend the accumulator with the
response's iteration, stop as soon as `len(items) < per_page`.
Returns the accumulated items and the list of requested URLs; `none`
means the fuel ran out before the loop stopped. -/
def fetchPagesLoop (http : String → Except Nat PyVal) (url : String) (perPage : Nat) :
    Nat → Nat → List PyVal → List String → Option (Except PyErr (List PyVal) × List String)
  | 0, _, _, _ => none
  | fuel + 1, page, acc, reqs =>
    let purl := pagedUrl url perPage page
    match http purl with
    | .error s => some (Except.error (PyErr.httpStatus s), reqs ++ [purl])
    | .ok items =>
      let acc2 := acc ++ pyIterate items
      if pyLen items < perPage then some (Except.ok acc2, reqs ++ [purl])
      else fetchPagesLoop http url perPage fuel (page + 1) acc2 (reqs ++ [purl])

/-- `fetch_repo_content(url, token, cache_dir, per_page)` (lines 24–50).
If the cache file exists its JSON payload is returned with no request;
otherwise the pagination loop runs and, on success only, the assembled
list is persisted under the cache key.  The result triple is
(returned value or raised exception, cache directory afterwards,
requested URLs in order). -/
def fetch_repo_content (http : String → Except Nat PyVal) (url : String)
    (cache : CacheMap) (perPage fuel : Nat) :
    Option (Except PyErr PyVal × CacheMap × List String) :=
  match List.lookup (cacheFileName url) cache with
  | some v => some (Except.ok v, cache, [])
  | none =>
    match fetchPagesLoop http url perPage fuel 1 [] [] with
    | none => none
    | some (Except.error e, reqs) => some (Except.error e, cache, reqs)
    | some (Except.ok items, reqs) =>
      some (Except.ok (PyVal.list items), cacheWrite cache (cacheFileName url) (PyVal.list items), reqs)

/-- Constant `GITHUB_API_URL` (line 12). -/
def GITHUB_API_URL : String := "https://api.github.com"

/-- Constant `SUPPORTED_FILETYPES` (line 14). -/
def SUPPORTED_FILETYPES : List String :=
  [".py", ".ipynb", ".html", ".css", ".js", ".jsx", ".md", ".rst"]

/-- `listStartsWith l p`: `p` is an initial run of `l` (character lists). -/
def listStartsWith : List Char → List Char → Bool
  | _, [] => true
  | [], _ :: _ => false
  | a :: as, b :: bs => a == b && listStartsWith as bs

/-- Python `s.endswith(suffix)`. -/
def pyEndsWith (s suffix : String) : Bool :=
  listStartsWith s.data.reverse suffix.data.reverse

/-- `any(name.endswith(ext) for ext in SUPPORTED_FILETYPES)`
(lines 65 and 109). -/
def hasSupportedExt (name : String) : Bool :=
  SUPPORTED_FILETYPES.any (fun ext => pyEndsWith name ext)

/-- `f"{GITHUB_API_URL}/repos/{owner}/{repo}/contents/README.md"` (line 86). -/
def readmeUrl (owner repo : String) : String :=
  GITHUB_API_URL ++ "/repos/" ++ owner ++ "/" ++ repo ++ "/contents/README.md"

/-- `f"{GITHUB_API_URL}/repos/{owner}/{repo}/git/trees/main?recursive=1"`
(lines 93–94, fixed default branch "main"). -/
def treeUrl (owner repo : String) : String :=
  GITHUB_API_URL ++ "/repos/" ++ owner ++ "/" ++ repo ++ "/git/trees/main?recursive=1"

/-- `f"{GITHUB_API_URL}/repos/{owner}/{repo}/contents/{path}"` (line 113). -/
def contentsUrl (owner repo path : String) : String :=
  GITHUB_API_URL ++ "/repos/" ++ owner ++ "/" ++ repo ++ "/contents/" ++ path

/-- `f"{owner}_{repo}_tree.json"`, the snapshot record file (line 98). -/
def treeCacheName (owner repo : String) : String :=
  owner ++ "_" ++ repo ++ "_tree.json"

/-- The placeholder block substituted on a README fetch error (line 91). -/
def readmePlaceholder : String := "README.md: Not found or error fetching README\n\n"

/-- `f"README.md:\n```\n{readme_content}\n```\n\n"` (line 89). -/
def readmeBlock (content : String) : String :=
  "README.md:\n```\n" ++ content ++ "\n```\n\n"

/-- The per-file output block `f"\n{identifier}:\n```\n{content}\n```\n"`
(lines 74 and 118). -/
def blockFor (ident content : String) : String :=
  "\n" ++ ident ++ ":\n```\n" ++ content ++ "\n```\n"

/-- The blob filter loop of `process_github_repo` (lines 107–110):
`item['type'] == 'blob' and any(item['path'].endswith(ext) …)`.
Subscript failures propagate; calling `.endswith` on a non-string
raises `AttributeError`. -/
def collectBlobPaths : List PyVal → Except PyErr (List String)
  | [] => Except.ok []
  | item :: rest =>
    match pyGetItem item "type" with
    | .error e => Except.error e
    | .ok t =>
      if pyEq t (PyVal.str "blob") then
        match pyGetItem item "path" with
        | .error e => Except.error e
        | .ok p =>
          match p with
          | .str ps =>
            if hasSupportedExt ps then
              match collectBlobPaths rest with
              | .error e => Except.error e
              | .ok l => Except.ok (ps :: l)
            else collectBlobPaths rest
          | _ => Except.error PyErr.attributeError
      else collectBlobPaths rest

/-- The content loading loop of `process_github_repo` (lines 112–118):
for each blob path, `load_file_content` fetches the contents endpoint
(through the cache), subscripts `['content']`, base64-decodes it, and the
block is appended to the document.  Any exception aborts the loop. -/
def loadFiles (b64 : String → Except PyErr String) (http : String → Except Nat PyVal)
    (owner repo : String) :
    List String → String → CacheMap → List String → Nat →
    Option (Except PyErr String × CacheMap × List String)
  | [], fs, cache, reqs, _ => some (Except.ok fs, cache, reqs)
  | p :: rest, fs, cache, reqs, fuel =>
    match fetch_repo_content http (contentsUrl owner repo p) cache 100 fuel with
    | none => none
    | some (Except.error e, c2, r2) => some (Except.error e, c2, reqs ++ r2)
    | some (Except.ok file_info, c2, r2) =>
      match (pyGetItem file_info "content").bind (pyB64String b64) with
      | .error e => some (Except.error e, c2, reqs ++ r2)
      | .ok content =>
        loadFiles b64 http owner repo rest (fs ++ blockFor p content) c2 (reqs ++ r2) fuel

/-- `process_github_repo` from the tree fetch on (lines 93–123): fetch the
recursive tree descriptor for branch "main" (a fetch error here
propagates), compare `sha` fields against the on-disk snapshot record if
one exists (returning only the preamble `fs` when equal), otherwise filter
the blob list, load every file's content, and finally overwrite the
snapshot record with the fetched descriptor. -/
def process_github_repo_rest (b64 : String → Except PyErr String)
    (http : String → Except Nat PyVal) (owner repo fs : String)
    (cache : CacheMap) (reqs : List String) (fuel : Nat) :
    Option (Except PyErr String × CacheMap × List String) :=
  match fetch_repo_content http (treeUrl owner repo) cache 100 fuel with
  | none => none
  | some (Except.error e, c2, r2) => some (Except.error e, c2, reqs ++ r2)
  | some (Except.ok tree_info, c2, r2) =>
    let reqs2 := reqs ++ r2
    let tname := treeCacheName owner repo
    let proceed : Option (Except PyErr String × CacheMap × List String) :=
      match pyGetItem tree_info "tree" with
      | .error e => some (Except.error e, c2, reqs2)
      | .ok tv =>
        match collectBlobPaths (pyIterate tv) with
        | .error e => some (Except.error e, c2, reqs2)
        | .ok file_paths =>
          match loadFiles b64 http owner repo file_paths fs c2 reqs2 fuel with
          | none => none
          | some (Except.error e, c3, r3) => some (Except.error e, c3, r3)
          | some (Except.ok fs2, c3, r3) => some (Except.ok fs2, cacheWrite c3 tname tree_info, r3)
    match List.lookup tname c2 with
    | none => proceed
    | some cached_tree_info =>
      match pyGetItem cached_tree_info "sha" with
      | .error e => some (Except.error e, c2, reqs2)
      | .ok csha =>
        match pyGetItem tree_info "sha" with
        | .error e => some (Except.error e, c2, reqs2)
        | .ok tsha =>
          if pyEq csha tsha then some (Except.ok fs, c2, reqs2) else proceed

/-- `process_github_repo(owner, repo, token, cache_dir)` (lines 82–123).
The README step (lines 85–91) runs inside
`try: … except requests.exceptions.RequestException:` — only HTTP-status
errors are caught and replaced by the placeholder block; `TypeError` /
`KeyError` from the subscript and decode escape the `try`.  The rest is
`process_github_repo_rest`. -/
def process_github_repo (b64 : String → Except PyErr String)
    (http : String → Except Nat PyVal) (owner repo : String)
    (cache : CacheMap) (fuel : Nat) :
    Option (Except PyErr String × CacheMap × List String) :=
  match fetch_repo_content http (readmeUrl owner repo) cache 100 fuel with
  | none => none
  | some (res, c1, r1) =>
    let fsRes : Except PyErr String :=
      match res with
      | .error (PyErr.httpStatus _) => Except.ok readmePlaceholder
      | .error e => Except.error e
      | .ok readme_info =>
        ((pyGetItem readme_info "content").bind (pyB64String b64)).map readmeBlock
    match fsRes with
    | .error e => some (Except.error e, c1, r1)
    | .ok fs => process_github_repo_rest b64 http owner repo fs c1 r1 fuel

/-- Python `s.split(sep)` for a single-character separator, on character
lists: `"".split("/") == ['']`, `"a//b".split("/") == ['a', '', 'b']`. -/
def splitChar (c : Char) : List Char → List (List Char)
  | [] => [[]]
  | x :: xs =>
    match splitChar c xs with
    | [] => [[]]
    | h :: t => if x == c then [] :: h :: t else (x :: h) :: t

/-- Python `s.strip(c)` for a single character: remove every leading and
trailing occurrence of `c`. -/
def stripChar (c : Char) (l : List Char) : List Char :=
  ((l.dropWhile (fun x => x == c)).reverse.dropWhile (fun x => x == c)).reverse

/-- Locate the first `"://"` and return what follows it. -/
def afterSchemeSep : List Char → Option (List Char)
  | ':' :: '/' :: '/' :: rest => some rest
  | _ :: xs => afterSchemeSep xs
  | [] => none

/-- The `.path` component produced by `urllib.parse.urlparse`, modelled for
URL-shaped inputs: the fragment (after `'#'`) and query (after `'?'`) are
cut off; when a `scheme://netloc` part is present the path is what starts
at the first `'/'` after the netloc (empty if there is none); a string
with no `"://"` is all path. -/
def urlPathChars (s : List Char) : List Char :=
  let s2 := s.takeWhile (fun ch => ch ≠ '?' && ch ≠ '#')
  match afterSchemeSep s2 with
  | some rest => rest.dropWhile (fun ch => ch ≠ '/')
  | none => s2

/-- `parse_github_url(url)` (lines 17–22):
`path_segments = urlparse(url).path.strip("/").split("/")`; returns the
first two segments if there are at least two, otherwise raises
`ValueError("Invalid GitHub URL provided!")`. -/
def parse_github_url (url : String) : Except String (String × String) :=
  match splitChar '/' (stripChar '/' (urlPathChars url.data)) with
  | a :: b :: _ => Except.ok (String.mk a, String.mk b)
  | _ => Except.error "Invalid GitHub URL provided!"

/-- The non-empty segments of the URL's path (for comparison with the
spec's words). -/
def nonEmptySegments (url : String) : List (List Char) :=
  (splitChar '/' (urlPathChars url.data)).filter (fun seg => !seg.isEmpty)

/-- The Reference Resolver exactly as §4.1 of the spec words it: "extract
the first two non-empty path segments as `(owner, name)`", failing when
fewer than two non-empty segments exist. -/
def referenceResolverSpec (url : String) : Except String (String × String) :=
  match nonEmptySegments url with
  | a :: b :: _ => Except.ok (String.mk a, String.mk b)
  | _ => Except.error "Invalid GitHub URL provided!"

/-- A node of the local directory tree scanned by `os.walk`: a file with
its textual content, or a subdirectory with its children (in `os.listdir`
order, which fixes the deterministic traversal order of one run). -/
inductive Entry where
  | file (name content : String)
  | dir (name : String) (children : List Entry)

/-- `os.path.join(root, name)` for a simple relative component. -/
def pyJoin (root name : String) : String := root ++ "/" ++ name

/-- The file names (not recursed) among a directory's entries, in listing
order — the `files` component of one `os.walk` tuple. -/
def levelFileNames : List Entry → List String
  | [] => []
  | .file n _ :: es => n :: levelFileNames es
  | .dir _ _ :: es => levelFileNames es

mutual
/-- `get_folder_files(folder_path, exclusions)` (lines 61–66), over the
modelled tree: the visited directory's matching files are yielded first
(the `for file in files` loop over one `os.walk` tuple), then the walk
descends into the pruned subdirectory list via `walkSubdirs`. -/
def get_folder_files (root : String) (entries : List Entry) (exclusions : List String) :
    List String :=
  ((levelFileNames entries).filter hasSupportedExt).map (fun n => pyJoin root n)
  ++ walkSubdirs root entries exclusions
termination_by (sizeOf entries, 1)

/-- The recursive descent of `os.walk`: in listing order, every
subdirectory whose joined path is not an exact member of `exclusions` is
visited — the `dirs[:] = [d for d in dirs if os.path.join(root, d) not in
exclusions]` pruning of line 63 drops excluded directories before any of
their children are seen. -/
def walkSubdirs (root : String) (entries : List Entry) (exclusions : List String) :
    List String :=
  match entries with
  | [] => []
  | Entry.file _ _ :: es => walkSubdirs root es exclusions
  | Entry.dir n ch :: es =>
    (if pyJoin root n ∈ exclusions then []
     else get_folder_files (pyJoin root n) ch exclusions)
    ++ walkSubdirs root es exclusions
termination_by (sizeOf entries, 0)
decreasing_by
  all_goals simp_wf
  all_goals simp [Prod.lex_def]
  all_goals omega
end

/-- The map from full file path to content induced by the tree: what
`open(file_path).read()` returns for each path under the root. -/
def fileMap (root : String) : List Entry → List (String × String)
  | [] => []
  | Entry.file n c :: es => (pyJoin root n, c) :: fileMap root es
  | Entry.dir n ch :: es => fileMap (pyJoin root n) ch ++ fileMap root es
termination_by es => sizeOf es
decreasing_by
  all_goals simp_wf
  all_goals omega

/-- `get_file_content(file_path)` (lines 68–70): read the file, `none`
modelling an `IOError` for a missing path. -/
def get_file_content (fsm : List (String × String)) (p : String) : Option String :=
  List.lookup p fsm

/-- `process_file(file_path)` (lines 72–74). -/
def process_file (fsm : List (String × String)) (p : String) : Option String :=
  (get_file_content fsm p).map (fun content => blockFor p content)

/-- `process_folder(folder_path, exclusions)` (lines 76–80) with its
sequential semantics: enumerate, process every file in enumeration order,
and join the blocks with no separator (`''.join`).  `none` models a worker
exception aborting the whole run.  (`Pool.imap` yields results in input
order; `process_folder_pool_order_invariant` below proves the pooled
reassembly equal to this for every completion order.) -/
def process_folder (root : String) (entries : List Entry) (exclusions : List String) :
    Option String :=
  ((get_folder_files root entries exclusions).mapM
      (process_file (fileMap root entries))).map String.join

/-- The indexed task list `[(i, ys[i])]` handed to the worker pool. -/
def indexedFrom : Nat → List α → List (Nat × α)
  | _, [] => []
  | i, a :: as => (i, a) :: indexedFrom (i + 1) as

/-- `Pool.imap` reassembly: the completions arrive as (index, result)
pairs in an arbitrary completion order; the iterator yields result `i` at
output position `i`.  `none` if some index is missing. -/
def imapCollect (n : Nat) (completions : List (Nat × Option String)) :
    Option (List (Option String)) :=
  (List.range n).mapM (fun i => List.lookup i completions)

/-- `process_folder` with the worker pool made explicit: the given
`completions` list is the order in which workers delivered
(index, `process_file` result) pairs; the pool reassembles them in input
order before concatenation. -/
def process_folder_pool (root : String) (entries : List Entry) (exclusions : List String)
    (completions : List (Nat × Option String)) : Option String :=
  let paths := get_folder_files root entries exclusions
  match imapCollect paths.length completions with
  | none => none
  | some rs => (rs.mapM (fun r => r)).map String.join

/-- The specification-side characterisation of the Filesystem Enumerator:
`WalkYields exclusions root entries p` holds iff `p` is the joined path of
a file whose name has a supported extension, reachable from the root
through directories none of whose joined paths belong to the exclusion
set. -/
inductive WalkYields (exclusions : List String) : String → List Entry → String → Prop where
  | here {root : String} {entries : List Entry} {n c : String} :
      Entry.file n c ∈ entries → hasSupportedExt n = true →
      WalkYields exclusions root entries (pyJoin root n)
  | child {root : String} {entries : List Entry} {d : String} {ch : List Entry} {p : String} :
      Entry.dir d ch ∈ entries → pyJoin root d ∉ exclusions →
      WalkYields exclusions (pyJoin root d) ch p →
      WalkYields exclusions root entries p

/-! ### Pagination loop lemmas -/

lemma getLastD_irrel {α : Type} (l : List α) (h : l ≠ []) (d d' : α) :
    l.getLastD d = l.getLastD d' := by
  cases l with
  | nil => exact absurd rfl h
  | cons a l => rfl

/-- If pages `page, page+1, …` return arrays, all full except a final short
one, the loop requests exactly those pages in order and accumulates their
elements in page order. -/
lemma fetchPagesLoop_ok (http : String → Except Nat PyVal) (url : String) (perPage : Nat) :
    ∀ (ps : List (List PyVal)) (page : Nat) (acc : List PyVal) (reqs : List String) (fuel : Nat),
      ps ≠ [] →
      (∀ i : Fin ps.length, http (pagedUrl url perPage (page + i.val))
        = Except.ok (PyVal.list (ps.get i))) →
      (∀ i : Fin ps.length, i.val + 1 < ps.length → perPage ≤ (ps.get i).length) →
      (ps.getLastD []).length < perPage →
      ps.length ≤ fuel →
      fetchPagesLoop http url perPage fuel page acc reqs
        = some (Except.ok (acc ++ ps.flatten),
                reqs ++ (List.range ps.length).map (fun i => pagedUrl url perPage (page + i)))
  | [], _, _, _, _, hne, _, _, _, _ => absurd rfl hne
  | a :: tail, page, acc, reqs, fuel, _, hok, hfull, hshort, hfuel => by
    cases fuel with
    | zero => simp at hfuel
    | succ f =>
      have h0 := hok ⟨0, by simp⟩
      simp only [Nat.add_zero, List.get] at h0
      simp only [fetchPagesLoop, h0, pyIterate, pyLen]
      cases tail with
      | nil =>
        have hp : a.length < perPage := by simpa [List.getLastD] using hshort
        rw [if_pos hp]
        simp [show List.range 1 = [0] from rfl]
      | cons t0 t1 =>
        have hfl : perPage ≤ a.length := by simpa using hfull ⟨0, by simp⟩ (by simp)
        rw [if_neg (by omega : ¬ a.length < perPage)]
        have ih := fetchPagesLoop_ok http url perPage (t0 :: t1) (page + 1)
          (acc ++ a) (reqs ++ [pagedUrl url perPage page]) f
          (List.cons_ne_nil _ _)
          (fun i => by
            have h1 := hok ⟨i.val + 1, by have hb := i.isLt; simp only [List.length_cons] at hb ⊢; omega⟩
            have harith : page + (i.val + 1) = page + 1 + i.val := by omega
            rw [harith] at h1
            simpa using h1)
          (fun i hi => by
            have h1 := hfull ⟨i.val + 1, by have hb := i.isLt; simp only [List.length_cons] at hb ⊢; omega⟩ (by have hb := i.isLt; simp only [List.length_cons] at hb hi ⊢; omega)
            simpa using h1)
          (by
            have h1 := getLastD_irrel (t0 :: t1) (List.cons_ne_nil _ _) a ([] : List PyVal)
            rw [← h1]
            simpa [List.getLastD] using hshort)
          (by simpa using Nat.le_of_succ_le_succ hfuel)
        rw [ih]
        have hrange : (List.range ((t0 :: t1).length + 1)).map
              (fun i => pagedUrl url perPage (page + i))
            = pagedUrl url perPage page
              :: (List.range (t0 :: t1).length).map
                  (fun i => pagedUrl url perPage (page + 1 + i)) := by
          rw [List.range_succ_eq_map]
          simp only [List.map_cons, Nat.add_zero, List.map_map]
          refine congrArg _ ?_
          refine List.map_congr_left (fun i _ => ?_)
          simp only [Function.comp_apply, Nat.succ_eq_add_one]
          have h2 : page + (i + 1) = page + 1 + i := by omega
          rw [h2]
        simp only [List.length_cons] at hrange ⊢
        rw [hrange]
        simp [List.append_assoc]

/-- If pages starting at `page` are full arrays and the next page request
fails with HTTP status `e`, the loop propagates the error. -/
lemma fetchPagesLoop_error (http : String → Except Nat PyVal) (url : String)
    (perPage : Nat) (e : Nat) :
    ∀ (ps : List (List PyVal)) (page : Nat) (acc : List PyVal) (reqs : List String) (fuel : Nat),
      (∀ i : Fin ps.length, http (pagedUrl url perPage (page + i.val))
        = Except.ok (PyVal.list (ps.get i))) →
      (∀ i : Fin ps.length, perPage ≤ (ps.get i).length) →
      http (pagedUrl url perPage (page + ps.length)) = Except.error e →
      ps.length + 1 ≤ fuel →
      fetchPagesLoop http url perPage fuel page acc reqs
        = some (Except.error (PyErr.httpStatus e),
                reqs ++ (List.range (ps.length + 1)).map (fun i => pagedUrl url perPage (page + i)))
  | [], page, acc, reqs, fuel, _, _, herr, hfuel => by
    cases fuel with
    | zero => simp at hfuel
    | succ f =>
      simp only [List.length_nil, Nat.add_zero] at herr
      simp only [fetchPagesLoop, herr]
      simp [show List.range 1 = [0] from rfl]
  | a :: tail, page, acc, reqs, fuel, hok, hfull, herr, hfuel => by
    cases fuel with
    | zero => simp at hfuel
    | succ f =>
      have h0 := hok ⟨0, by simp⟩
      simp only [Nat.add_zero, List.get] at h0
      simp only [fetchPagesLoop, h0, pyIterate, pyLen]
      have hfl : perPage ≤ a.length := by simpa using hfull ⟨0, by simp⟩
      rw [if_neg (by omega : ¬ a.length < perPage)]
      have ih := fetchPagesLoop_error http url perPage e tail (page + 1)
        (acc ++ a) (reqs ++ [pagedUrl url perPage page]) f
        (fun i => by
          have h1 := hok ⟨i.val + 1, by have hb := i.isLt; simp only [List.length_cons] at hb ⊢; omega⟩
          have harith : page + (i.val + 1) = page + 1 + i.val := by omega
          rw [harith] at h1
          simpa using h1)
        (fun i => by
          have h1 := hfull ⟨i.val + 1, by have hb := i.isLt; simp only [List.length_cons] at hb ⊢; omega⟩
          simpa using h1)
        (by
          have harith : page + (a :: tail).length = page + 1 + tail.length := by
            simp only [List.length_cons]
            omega
          rw [harith] at herr
          exact herr)
        (by simpa using Nat.le_of_succ_le_succ hfuel)
      rw [ih]
      have hrange : (List.range (tail.length + 1 + 1)).map
            (fun i => pagedUrl url perPage (page + i))
          = pagedUrl url perPage page
            :: (List.range (tail.length + 1)).map
                (fun i => pagedUrl url perPage (page + 1 + i)) := by
        rw [List.range_succ_eq_map]
        simp only [List.map_cons, Nat.add_zero, List.map_map]
        refine congrArg _ ?_
        refine List.map_congr_left (fun i _ => ?_)
        simp only [Function.comp_apply, Nat.succ_eq_add_one]
        have h2 : page + (i + 1) = page + 1 + i := by omega
        rw [h2]
      simp only [List.length_cons] at hrange ⊢
      rw [hrange]
      simp [List.append_assoc]

/-- A cache hit returns the stored payload with no request and no change. -/
lemma fetch_repo_content_cache_hit (http : String → Except Nat PyVal) (url : String)
    (cache : CacheMap) (v : PyVal) (perPage fuel : Nat)
    (h : List.lookup (cacheFileName url) cache = some v) :
    fetch_repo_content http url cache perPage fuel = some (Except.ok v, cache, []) := by
  rw [fetch_repo_content, h]

/-! ### Claims C1, C2, C10: the Paginated Fetch Client -/

/-- C1: for every uncached call of `fetch_repo_content` whose page
responses are JSON arrays, the client requests pages `1, 2, …` strictly
sequentially, appends each page's items in page order, stops after the
first page shorter than `per_page`, and persists the assembled collection
under the cache key; any later call for the same URL against the updated
cache returns the same collection while issuing no HTTP request. -/
theorem fetch_repo_content_paginates_and_caches
    (http : String → Except Nat PyVal) (url : String) (cache : CacheMap)
    (perPage fuel : Nat) (ps : List (List PyVal))
    (hne : ps ≠ [])
    (hcache : List.lookup (cacheFileName url) cache = none)
    (hok : ∀ i : Fin ps.length, http (pagedUrl url perPage (1 + i.val))
      = Except.ok (PyVal.list (ps.get i)))
    (hfull : ∀ i : Fin ps.length, i.val + 1 < ps.length → perPage ≤ (ps.get i).length)
    (hshort : (ps.getLastD []).length < perPage)
    (hfuel : ps.length ≤ fuel) :
    fetch_repo_content http url cache perPage fuel
      = some (Except.ok (PyVal.list ps.flatten),
              cacheWrite cache (cacheFileName url) (PyVal.list ps.flatten),
              (List.range ps.length).map (fun i => pagedUrl url perPage (1 + i)))
    ∧ ∀ fuel2 perPage2,
        fetch_repo_content http url
            (cacheWrite cache (cacheFileName url) (PyVal.list ps.flatten)) perPage2 fuel2
          = some (Except.ok (PyVal.list ps.flatten),
                  cacheWrite cache (cacheFileName url) (PyVal.list ps.flatten), []) := by
  constructor
  · simp only [fetch_repo_content, hcache]
    rw [fetchPagesLoop_ok http url perPage ps 1 [] [] fuel hne hok hfull hshort hfuel]
    simp
  · intro fuel2 perPage2
    apply fetch_repo_content_cache_hit
    simp [cacheWrite, List.lookup]

/-- The simulated API of the spec's pagination scenario: pages of sizes
100, 100 and 37 under the collection URL `"u"`, distinct items
throughout. -/
def pageSlice (a b : Nat) : List PyVal :=
  (List.range' a b).map (fun i => PyVal.str (Nat.repr i))

def psScenario : List (List PyVal) :=
  [pageSlice 0 100, pageSlice 100 100, pageSlice 200 37]

def httpScenario : String → Except Nat PyVal := fun u =>
  if u = pagedUrl "u" 100 1 then Except.ok (PyVal.list (pageSlice 0 100))
  else if u = pagedUrl "u" 100 2 then Except.ok (PyVal.list (pageSlice 100 100))
  else if u = pagedUrl "u" 100 3 then Except.ok (PyVal.list (pageSlice 200 37))
  else Except.error 404

set_option maxRecDepth 100000 in
theorem fetch_repo_content_paginates_and_caches_witness :
    psScenario.flatten.length = 237 ∧ psScenario.length = 3 ∧
    (fetch_repo_content httpScenario "u" [] 100 5
      = some (Except.ok (PyVal.list psScenario.flatten),
              cacheWrite [] (cacheFileName "u") (PyVal.list psScenario.flatten),
              (List.range psScenario.length).map (fun i => pagedUrl "u" 100 (1 + i))))
    ∧ fetch_repo_content httpScenario "u"
          (cacheWrite [] (cacheFileName "u") (PyVal.list psScenario.flatten)) 100 7
        = some (Except.ok (PyVal.list psScenario.flatten),
                cacheWrite [] (cacheFileName "u") (PyVal.list psScenario.flatten), []) := by
  have h := fetch_repo_content_paginates_and_caches httpScenario "u" [] 100 5 psScenario
    (by simp [psScenario])
    rfl
    (by intro i; fin_cases i <;> rfl)
    (by
      intro i hi
      fin_cases i
      · decide
      · decide
      · exact absurd hi (by decide))
    (by decide)
    (by decide)
  exact ⟨by decide, by decide, h.1, h.2 7 100⟩

/-- C2: an uncached call of `fetch_repo_content` whose response body is a
JSON object (as the single-file-contents and git-tree endpoints return)
returns — and persists under the cache key — the list of the object's key
strings, because `all_items.extend(items)` iterates over the dict's keys;
and the string subscripts `['content']`, `['sha']`, `['tree']` applied to
such a list raise `TypeError` instead of yielding the fields. -/
theorem fetch_repo_content_object_response_keys
    (http : String → Except Nat PyVal) (url : String) (cache : CacheMap)
    (perPage fuel : Nat) (kvs : List (String × PyVal))
    (hcache : List.lookup (cacheFileName url) cache = none)
    (hobj : http (pagedUrl url perPage 1) = Except.ok (PyVal.dict kvs))
    (hshort : kvs.length < perPage)
    (hfuel : 1 ≤ fuel) :
    fetch_repo_content http url cache perPage fuel
      = some (Except.ok (PyVal.list (pyKeys kvs)),
              cacheWrite cache (cacheFileName url) (PyVal.list (pyKeys kvs)),
              [pagedUrl url perPage 1])
    ∧ ∀ xs k, pyGetItem (PyVal.list xs) k = Except.error PyErr.typeError := by
  constructor
  · cases fuel with
    | zero => exact absurd hfuel (by simp)
    | succ f =>
      simp only [fetch_repo_content, hcache, fetchPagesLoop, hobj, pyIterate, pyLen]
      rw [if_pos hshort]
      simp [pyKeys]
  · intro xs k
    rfl

def httpObjScenario : String → Except Nat PyVal := fun u =>
  if u = pagedUrl "v" 100 1 then
    Except.ok (PyVal.dict [("content", PyVal.str "aGk="), ("sha", PyVal.str "s")])
  else Except.error 500

theorem fetch_repo_content_object_response_keys_witness :
    fetch_repo_content httpObjScenario "v" [] 100 1
      = some (Except.ok (PyVal.list [PyVal.str "content", PyVal.str "sha"]),
              cacheWrite [] (cacheFileName "v")
                (PyVal.list [PyVal.str "content", PyVal.str "sha"]),
              [pagedUrl "v" 100 1]) :=
  (fetch_repo_content_object_response_keys httpObjScenario "v" [] 100 1
    [("content", PyVal.str "aGk="), ("sha", PyVal.str "s")]
    rfl rfl (by decide) (by decide)).1

/-- C10: for an uncached call in which some page request returns a
non-success HTTP status after a (possibly empty) run of full array pages,
the error propagates as the result and the cache is returned unchanged —
no cache file is written, and the items accumulated from the earlier
successful pages of the call are discarded. -/
theorem fetch_repo_content_error_leaves_cache
    (http : String → Except Nat PyVal) (url : String) (cache : CacheMap)
    (perPage fuel e : Nat) (ps : List (List PyVal))
    (hcache : List.lookup (cacheFileName url) cache = none)
    (hok : ∀ i : Fin ps.length, http (pagedUrl url perPage (1 + i.val))
      = Except.ok (PyVal.list (ps.get i)))
    (hfull : ∀ i : Fin ps.length, perPage ≤ (ps.get i).length)
    (herr : http (pagedUrl url perPage (1 + ps.length)) = Except.error e)
    (hfuel : ps.length + 1 ≤ fuel) :
    fetch_repo_content http url cache perPage fuel
      = some (Except.error (PyErr.httpStatus e), cache,
              (List.range (ps.length + 1)).map (fun i => pagedUrl url perPage (1 + i))) := by
  simp only [fetch_repo_content, hcache]
  rw [fetchPagesLoop_error http url perPage e ps 1 [] [] fuel hok hfull herr hfuel]
  simp

def httpErrScenario : String → Except Nat PyVal := fun u =>
  if u = pagedUrl "w" 2 1 then Except.ok (PyVal.list [PyVal.str "x", PyVal.str "y"])
  else Except.error 500

theorem fetch_repo_content_error_leaves_cache_witness :
    fetch_repo_content httpErrScenario "w" [] 2 9
      = some (Except.error (PyErr.httpStatus 500), [],
              (List.range 2).map (fun i => pagedUrl "w" 2 (1 + i))) :=
  fetch_repo_content_error_leaves_cache httpErrScenario "w" [] 2 9 500
    [[PyVal.str "x", PyVal.str "y"]]
    rfl
    (by intro i; fin_cases i <;> rfl)
    (by intro i; fin_cases i <;> decide)
    rfl
    (by decide)

/-! ### Claim C8: the cache-key mapping -/

/-- Undoing the slash replacement on underscore-free strings. -/
lemma map_unslash_slash (l : List Char) (h : ('_' : Char) ∉ l) :
    (l.map (fun c => if c == '/' then '_' else c)).map
      (fun c => if c == '_' then '/' else c) = l := by
  induction l with
  | nil => rfl
  | cons a as ih =>
    have ha : a ≠ '_' := by
      intro hcon
      exact h (hcon ▸ List.mem_cons_self a as)
    have has : ('_' : Char) ∉ as := fun hcon => h (List.mem_cons_of_mem a hcon)
    simp only [List.map_cons, ih has]
    by_cases hslash : a = '/'
    · subst hslash
      simp
    · have hf : (a == '/') = false := by simpa using hslash
      have hg : (a == '_') = false := by simpa using ha
      simp [hf, hg]

/-- C8 counterexample: the cache filename mapping is not injective on all
URLs — replacing `/` by `_` conflates a path slash with a literal
underscore, so two distinct request URLs share one cache file. -/
theorem cacheFileName_collision :
    cacheFileName "https://api.github.com/repos/o/r/contents/a/b.py"
      = cacheFileName "https://api.github.com/repos/o/r/contents/a_b.py"
    ∧ ("https://api.github.com/repos/o/r/contents/a/b.py" : String)
      ≠ "https://api.github.com/repos/o/r/contents/a_b.py" := by
  constructor
  · rfl
  · decide

/-- C8 (amended): restricted to request URLs containing no underscore,
the mapping from URL to cache filename is injective, so within one cache
directory a cached response is only returned for the exact URL that
produced it. -/
theorem cacheFileName_injective_on_underscore_free
    (u1 u2 : String) (h1 : ('_' : Char) ∉ u1.data) (h2 : ('_' : Char) ∉ u2.data)
    (heq : cacheFileName u1 = cacheFileName u2) : u1 = u2 := by
  unfold cacheFileName replaceSlash at heq
  have hd := congrArg String.data heq
  simp only [String.data_append] at hd
  have hm : u1.data.map (fun c => if c == '/' then '_' else c)
      = u2.data.map (fun c => if c == '/' then '_' else c) := by
    exact List.append_cancel_right hd
  have hu : u1.data = u2.data := by
    have r1 := map_unslash_slash u1.data h1
    have r2 := map_unslash_slash u2.data h2
    rw [← r1, ← r2, hm]
  exact String.ext hu

theorem cacheFileName_injective_on_underscore_free_witness :
    ("https://api.github.com/repos/a/b" : String) = "https://api.github.com/repos/a/b" :=
  cacheFileName_injective_on_underscore_free
    "https://api.github.com/repos/a/b" "https://api.github.com/repos/a/b"
    (by decide) (by decide) rfl

/-! ### Claims C3 and C9: `process_github_repo` -/

/-- A stand-in for `base64.b64decode(.).decode('utf-8')`; the traces below
never reach a decode. -/
def b64Ok : String → Except PyErr String := fun s => Except.ok s

/-- A simulated API for the snapshot-differ scenario: the README request
fails with 404, the tree request returns a proper tree descriptor object
`{"sha": "abc", "tree": []}` whose `sha` equals the one stored in the
on-disk record. -/
def httpTreeScenario : String → Except Nat PyVal := fun u =>
  if u = pagedUrl (readmeUrl "o" "r") 100 1 then Except.error 404
  else if u = pagedUrl (treeUrl "o" "r") 100 1 then
    Except.ok (PyVal.dict [("sha", PyVal.str "abc"), ("tree", PyVal.list [])])
  else Except.error 500

/-- C3 (code bug): with a snapshot record on disk whose `sha` equals the
just-fetched descriptor's `sha`, `process_github_repo` does not return the
README-only block — it raises `TypeError`, because `fetch_repo_content`
turned the tree response object into the list of its key strings
(`all_items.extend` over a dict), and `tree_info['sha']` subscripts that
list.  The run aborts with the record unchanged and the key-string list
persisted under the tree URL's cache key. -/
theorem process_github_repo_sha_compare_type_error :
    process_github_repo b64Ok httpTreeScenario "o" "r"
        [(treeCacheName "o" "r", PyVal.dict [("sha", PyVal.str "abc")])] 5
      = some (Except.error PyErr.typeError,
              cacheWrite [(treeCacheName "o" "r", PyVal.dict [("sha", PyVal.str "abc")])]
                (cacheFileName (treeUrl "o" "r"))
                (PyVal.list [PyVal.str "sha", PyVal.str "tree"]),
              [pagedUrl (readmeUrl "o" "r") 100 1, pagedUrl (treeUrl "o" "r") 100 1]) := by
  rfl

/-- C9: a non-success HTTP status on the root README fetch is caught by the
`except requests.exceptions.RequestException` clause — the run continues
into the tree fetch with the placeholder block as its preamble, so a README
fetch failure alone never aborts the run; whereas a non-success status on
the tree-descriptor fetch itself propagates and aborts the run. -/
theorem process_github_repo_readme_error_nonfatal
    (b64 : String → Except PyErr String) (http : String → Except Nat PyVal)
    (owner repo : String) (cache : CacheMap) (fuel s : Nat)
    (hcache : List.lookup (cacheFileName (readmeUrl owner repo)) cache = none)
    (herr : http (pagedUrl (readmeUrl owner repo) 100 1) = Except.error s)
    (hfuel : 1 ≤ fuel) :
    process_github_repo b64 http owner repo cache fuel
      = process_github_repo_rest b64 http owner repo readmePlaceholder cache
          [pagedUrl (readmeUrl owner repo) 100 1] fuel
    ∧ ∀ t, List.lookup (cacheFileName (treeUrl owner repo)) cache = none →
        http (pagedUrl (treeUrl owner repo) 100 1) = Except.error t →
        process_github_repo b64 http owner repo cache fuel
          = some (Except.error (PyErr.httpStatus t), cache,
                  [pagedUrl (readmeUrl owner repo) 100 1,
                   pagedUrl (treeUrl owner repo) 100 1]) := by
  have hfetch : fetch_repo_content http (readmeUrl owner repo) cache 100 fuel
      = some (Except.error (PyErr.httpStatus s), cache,
              [pagedUrl (readmeUrl owner repo) 100 1]) := by
    have h := fetch_repo_content_error_leaves_cache http (readmeUrl owner repo) cache
      100 fuel s [] hcache (fun i => i.elim0) (fun i => i.elim0)
      (by simpa using herr) (by simp only [List.length_nil]; omega)
    simpa [show List.range 1 = [0] from rfl] using h
  have hmain : process_github_repo b64 http owner repo cache fuel
      = process_github_repo_rest b64 http owner repo readmePlaceholder cache
          [pagedUrl (readmeUrl owner repo) 100 1] fuel := by
    simp only [process_github_repo, hfetch]
  refine ⟨hmain, fun t hc2 ht => ?_⟩
  have hfetch2 : fetch_repo_content http (treeUrl owner repo) cache 100 fuel
      = some (Except.error (PyErr.httpStatus t), cache,
              [pagedUrl (treeUrl owner repo) 100 1]) := by
    have h := fetch_repo_content_error_leaves_cache http (treeUrl owner repo) cache
      100 fuel t [] hc2 (fun i => i.elim0) (fun i => i.elim0)
      (by simpa using ht) (by simp only [List.length_nil]; omega)
    simpa [show List.range 1 = [0] from rfl] using h
  rw [hmain]
  simp only [process_github_repo_rest, hfetch2]
  rfl

def httpAllErrScenario : String → Except Nat PyVal := fun _ => Except.error 404

theorem process_github_repo_readme_error_nonfatal_witness :
    process_github_repo b64Ok httpAllErrScenario "o2" "r2" [] 3
      = some (Except.error (PyErr.httpStatus 404), [],
              [pagedUrl (readmeUrl "o2" "r2") 100 1, pagedUrl (treeUrl "o2" "r2") 100 1]) :=
  (process_github_repo_readme_error_nonfatal b64Ok httpAllErrScenario "o2" "r2" [] 3 404
    rfl rfl (by decide)).2 404 rfl rfl

/-! ### Claim C4: the local-folder end-to-end scenario -/

/-- C4: for a folder holding exactly `x.py` (content "a") and `y.md`
(content "b") and an empty exclusion set, `process_folder` returns exactly
the two per-file blocks `"\n{identifier}:\n```\n{content}\n```\n"`
concatenated in discovery order, with nothing between them beyond the
template's own newlines. -/
theorem process_folder_two_files_output :
    process_folder "f" [Entry.file "x.py" "a", Entry.file "y.md" "b"] []
      = some (blockFor "f/x.py" "a" ++ blockFor "f/y.md" "b") := by
  have h1 : get_folder_files "f" [Entry.file "x.py" "a", Entry.file "y.md" "b"] []
      = ["f/x.py", "f/y.md"] := by
    simp only [get_folder_files, walkSubdirs, levelFileNames]
    decide
  have h2 : fileMap "f" [Entry.file "x.py" "a", Entry.file "y.md" "b"]
      = [("f/x.py", "a"), ("f/y.md", "b")] := by
    simp only [fileMap]
    decide
  simp only [process_folder, h1, h2]
  decide

/-! ### Claim C6: the Filesystem Enumerator characterisation -/

lemma mem_levelFileNames (entries : List Entry) (n : String) :
    n ∈ levelFileNames entries ↔ ∃ c, Entry.file n c ∈ entries := by
  induction entries with
  | nil => simp [levelFileNames]
  | cons e es ih =>
    cases e with
    | file m c =>
      simp only [levelFileNames, List.mem_cons, ih]
      aesop
    | dir m ch => simp [levelFileNames, ih]

lemma mem_walkSubdirs_iff (root : String) (entries : List Entry)
    (exclusions : List String) (p : String) :
    p ∈ walkSubdirs root entries exclusions ↔
      ∃ d ch, Entry.dir d ch ∈ entries ∧ pyJoin root d ∉ exclusions
        ∧ p ∈ get_folder_files (pyJoin root d) ch exclusions := by
  induction entries with
  | nil => simp [walkSubdirs]
  | cons e es ih =>
    cases e with
    | file m c => simp [walkSubdirs, ih]
    | dir m ch =>
      by_cases hx : pyJoin root m ∈ exclusions
      · rw [walkSubdirs, if_pos hx]
        simp only [List.nil_append, ih]
        constructor
        · rintro ⟨d, ch2, hmem, hnx, hp⟩
          exact ⟨d, ch2, List.mem_cons_of_mem _ hmem, hnx, hp⟩
        · rintro ⟨d, ch2, hmem, hnx, hp⟩
          rcases List.mem_cons.1 hmem with heq | htl
          · obtain ⟨rfl, rfl⟩ : d = m ∧ ch2 = ch := by
              injection heq with hh1 hh2
              exact ⟨hh1, hh2⟩
            exact absurd hx hnx
          · exact ⟨d, ch2, htl, hnx, hp⟩
      · rw [walkSubdirs, if_neg hx]
        simp only [List.mem_append, ih]
        constructor
        · rintro (hp | ⟨d, ch2, hmem, hnx, hp⟩)
          · exact ⟨m, ch, List.mem_cons_self _ _, hx, hp⟩
          · exact ⟨d, ch2, List.mem_cons_of_mem _ hmem, hnx, hp⟩
        · rintro ⟨d, ch2, hmem, hnx, hp⟩
          rcases List.mem_cons.1 hmem with heq | htl
          · obtain ⟨rfl, rfl⟩ : d = m ∧ ch2 = ch := by
              injection heq with hh1 hh2
              exact ⟨hh1, hh2⟩
            exact Or.inl hp
          · exact Or.inr ⟨d, ch2, htl, hnx, hp⟩

/-- Everything the specification predicate claims is indeed yielded. -/
lemma walkYields_mem {exclusions : List String} {root : String}
    {entries : List Entry} {p : String}
    (h : WalkYields exclusions root entries p) :
    p ∈ get_folder_files root entries exclusions := by
  induction h with
  | here hmem hext =>
    rw [get_folder_files]
    refine List.mem_append.2 (Or.inl ?_)
    exact List.mem_map.2 ⟨_, List.mem_filter.2
      ⟨(mem_levelFileNames _ _).2 ⟨_, hmem⟩, hext⟩, rfl⟩
  | child hmem hnx hsub ihsub =>
    rw [get_folder_files]
    refine List.mem_append.2 (Or.inr ?_)
    exact (mem_walkSubdirs_iff _ _ _ _).2 ⟨_, _, hmem, hnx, ihsub⟩

/-- Everything yielded satisfies the specification predicate (strong
induction on the tree size). -/
lemma mem_walkYields : ∀ (k : Nat) (entries : List Entry), sizeOf entries ≤ k →
    ∀ (root : String) (exclusions : List String) (p : String),
      p ∈ get_folder_files root entries exclusions →
      WalkYields exclusions root entries p := by
  intro k
  induction k with
  | zero =>
    intro entries hsz
    cases entries with
    | nil => simp at hsz
    | cons e es => simp at hsz
  | succ k ih =>
    intro entries hsz root exclusions p hmem
    rw [get_folder_files] at hmem
    rcases List.mem_append.1 hmem with hf | hw
    · rcases List.mem_map.1 hf with ⟨n, hn, rfl⟩
      rcases List.mem_filter.1 hn with ⟨hmemn, hext⟩
      rcases (mem_levelFileNames _ _).1 hmemn with ⟨c, hc⟩
      exact WalkYields.here hc hext
    · rcases (mem_walkSubdirs_iff _ _ _ _).1 hw with ⟨d, ch, hdm, hnx, hp⟩
      have hch : sizeOf ch ≤ k := by
        have h1 := List.sizeOf_lt_of_mem hdm
        simp only [Entry.dir.sizeOf_spec] at h1
        omega
      exact WalkYields.child hdm hnx (ih ch hch (pyJoin root d) exclusions p hp)

/-- C6: the Filesystem Enumerator yields exactly the joined paths of files
with a supported extension reachable through non-excluded directories —
pruning is by exact membership of the joined directory path in the
exclusion set, so no file below an excluded directory is ever yielded;
and on the spec's example tree (`a.py`, `b.txt`, excluded
`node_modules/c.py`) it yields exactly `[a.py]`. -/
theorem get_folder_files_characterisation :
    (∀ (root : String) (entries : List Entry) (exclusions : List String) (p : String),
        p ∈ get_folder_files root entries exclusions ↔ WalkYields exclusions root entries p)
    ∧ get_folder_files "r"
        [Entry.file "a.py" "", Entry.file "b.txt" "",
         Entry.dir "node_modules" [Entry.file "c.py" ""]] ["r/node_modules"]
      = ["r/a.py"] := by
  constructor
  · intro root entries exclusions p
    exact ⟨mem_walkYields (sizeOf entries) entries le_rfl root exclusions p, walkYields_mem⟩
  · simp only [get_folder_files, walkSubdirs, levelFileNames]
    decide

/-! ### Claim C7: pool reassembly is order invariant -/

lemma lookup_eq_of_mem_of_nodup {α : Type} :
    ∀ (cs : List (Nat × α)) (a : Nat) (b : α),
      (cs.map Prod.fst).Nodup → (a, b) ∈ cs → List.lookup a cs = some b
  | [], _, _, _, hm => absurd hm (List.not_mem_nil _)
  | (k, v) :: tl, a, b, hnd, hm => by
    rcases List.mem_cons.1 hm with heq | htl
    · obtain ⟨rfl, rfl⟩ : a = k ∧ b = v := by
        injection heq with h1 h2
        exact ⟨h1, h2⟩
      simp [List.lookup]
    · by_cases hak : a = k
      · subst hak
        have hmm : a ∈ tl.map Prod.fst := List.mem_map.2 ⟨(a, b), htl, rfl⟩
        have hnd2 : (a :: tl.map Prod.fst).Nodup := hnd
        exact absurd hmm (List.nodup_cons.1 hnd2).1
      · have hne : (a == k) = false := by simpa using hak
        simp only [List.lookup, hne]
        have hnd2 : (k :: tl.map Prod.fst).Nodup := hnd
        exact lookup_eq_of_mem_of_nodup tl a b (List.nodup_cons.1 hnd2).2 htl

lemma mem_indexedFrom {α : Type} :
    ∀ (ys : List α) (k i : Nat) (hi : i < ys.length),
      (k + i, ys.get ⟨i, hi⟩) ∈ indexedFrom k ys
  | [], _, _, hi => absurd hi (by simp)
  | y :: ys, k, 0, _ => by simp [indexedFrom]
  | y :: ys, k, i + 1, hi => by
    have h1 := mem_indexedFrom ys (k + 1) i (by simpa using Nat.lt_of_succ_lt_succ hi)
    have harith : k + 1 + i = k + (i + 1) := by omega
    rw [harith] at h1
    exact List.mem_cons_of_mem _ (by simpa using h1)

lemma indexedFrom_map_fst {α : Type} :
    ∀ (ys : List α) (k : Nat), (indexedFrom k ys).map Prod.fst = List.range' k ys.length
  | [], _ => rfl
  | y :: ys, k => by
    simp only [indexedFrom, List.map_cons, indexedFrom_map_fst ys (k + 1),
      List.length_cons, List.range'_succ]

lemma range'_mapM_of_get {α : Type} (f : Nat → Option α) :
    ∀ (ys : List α) (k : Nat),
      (∀ i (hi : i < ys.length), f (k + i) = some (ys.get ⟨i, hi⟩)) →
      (List.range' k ys.length).mapM f = some ys
  | [], _, _ => rfl
  | y :: ys, k, h => by
    have h0 := h 0 (by simp)
    simp only [Nat.add_zero, List.get] at h0
    have ih := range'_mapM_of_get f ys (k + 1) (fun i hi => by
      have h1 := h (i + 1) (by simpa using Nat.succ_lt_succ hi)
      have harith : k + (i + 1) = k + 1 + i := by omega
      rw [harith] at h1
      simpa using h1)
    simp only [List.length_cons, List.range'_succ, List.mapM_cons, h0, ih]
    rfl

lemma mapM_map_id {α β : Type} (f : α → Option β) (l : List α) :
    (l.map f).mapM (fun r => r) = l.mapM f := by
  induction l with
  | nil => rfl
  | cons a l ih => rw [List.map_cons, List.mapM_cons, List.mapM_cons, ih]

/-- C7: the document produced by `process_folder` through the worker pool
equals the purely sequential concatenation of `process_file` over the
enumerated paths, for every completion order of the workers — output
blocks appear in input-list order, never by completion time, so the result
is invariant under the pool size. -/
theorem process_folder_pool_order_invariant
    (root : String) (entries : List Entry) (exclusions : List String)
    (completions : List (Nat × Option String))
    (h : completions.Perm (indexedFrom 0
      ((get_folder_files root entries exclusions).map
        (process_file (fileMap root entries))))) :
    process_folder_pool root entries exclusions completions
      = process_folder root entries exclusions := by
  have hnd : (completions.map Prod.fst).Nodup := by
    have hp := h.map Prod.fst
    rw [indexedFrom_map_fst] at hp
    exact hp.nodup_iff.2 (List.nodup_range' _ _)
  have hcollect : imapCollect (get_folder_files root entries exclusions).length completions
      = some ((get_folder_files root entries exclusions).map
          (process_file (fileMap root entries))) := by
    rw [imapCollect, show (get_folder_files root entries exclusions).length
        = ((get_folder_files root entries exclusions).map
            (process_file (fileMap root entries))).length by simp,
      List.range_eq_range']
    apply range'_mapM_of_get
    intro i hi
    simp only [Nat.zero_add]
    apply lookup_eq_of_mem_of_nodup completions i _ hnd
    have hm := mem_indexedFrom ((get_folder_files root entries exclusions).map
      (process_file (fileMap root entries))) 0 i hi
    simp only [Nat.zero_add] at hm
    exact h.mem_iff.2 hm
  simp only [process_folder_pool, process_folder, hcollect]
  rw [mapM_map_id]

def poolEntriesScenario : List Entry := [Entry.file "m.py" "p", Entry.file "n.md" "q"]

def poolCompletionsScenario : List (Nat × Option String) :=
  [(1, some (blockFor "g/n.md" "q")), (0, some (blockFor "g/m.py" "p"))]

theorem process_folder_pool_order_invariant_witness :
    process_folder_pool "g" poolEntriesScenario [] poolCompletionsScenario
      = process_folder "g" poolEntriesScenario [] := by
  apply process_folder_pool_order_invariant
  have hcalc : (get_folder_files "g" poolEntriesScenario []).map
      (process_file (fileMap "g" poolEntriesScenario))
      = [some (blockFor "g/m.py" "p"), some (blockFor "g/n.md" "q")] := by
    have h1 : get_folder_files "g" poolEntriesScenario [] = ["g/m.py", "g/n.md"] := by
      simp only [poolEntriesScenario, get_folder_files, walkSubdirs, levelFileNames]
      decide
    have h2 : fileMap "g" poolEntriesScenario
        = [("g/m.py", "p"), ("g/n.md", "q")] := by
      simp only [poolEntriesScenario, fileMap]
      decide
    rw [h1, h2]
    decide
  rw [hcalc]
  exact List.Perm.swap _ _ _

/-! ### Claim C5: the Reference Resolver -/

lemma splitChar_ne_nil (c : Char) : ∀ l, splitChar c l ≠ []
  | [] => by simp [splitChar]
  | x :: xs => by
    simp only [splitChar]
    cases hsp : splitChar c xs with
    | nil => simp
    | cons h t =>
      by_cases hx : x = c
      · simp [hx]
      · simp [hx]

lemma splitChar_cons_of_ne (c x : Char) (xs : List Char) (hx : ¬ x = c)
    (h : List Char) (t : List (List Char)) (hsp : splitChar c xs = h :: t) :
    splitChar c (x :: xs) = (x :: h) :: t := by
  simp only [splitChar, hsp]
  simp [hx]

lemma splitChar_cons_of_eq (c : Char) (xs : List Char)
    (h : List Char) (t : List (List Char)) (hsp : splitChar c xs = h :: t) :
    splitChar c (c :: xs) = [] :: h :: t := by
  simp only [splitChar, hsp]
  simp

lemma splitChar_exists_cons (c : Char) (l : List Char) :
    ∃ h t, splitChar c l = h :: t := by
  cases hsp : splitChar c l with
  | nil => exact absurd hsp (splitChar_ne_nil c l)
  | cons h t => exact ⟨h, t, rfl⟩

lemma splitChar_replicate_append (c : Char) (l : List Char) :
    ∀ k, splitChar c (List.replicate k c ++ l)
      = List.replicate k ([] : List Char) ++ splitChar c l
  | 0 => by simp
  | k + 1 => by
    have ih := splitChar_replicate_append c l k
    obtain ⟨h, t, hsp⟩ := splitChar_exists_cons c (List.replicate k c ++ l)
    rw [List.replicate_succ, List.cons_append,
      splitChar_cons_of_eq c _ h t hsp, hsp.symm.trans ih]
    rfl

lemma splitChar_append_replicate (c : Char) (k : Nat) :
    ∀ l, splitChar c (l ++ List.replicate k c)
      = splitChar c l ++ List.replicate k ([] : List Char)
  | [] => by
    rw [List.nil_append]
    have h1 := splitChar_replicate_append c [] k
    rw [List.append_nil] at h1
    rw [h1]
    show List.replicate k ([] : List Char) ++ [[]] = [[]] ++ List.replicate k []
    rw [← List.replicate_succ' k ([] : List Char)]
    rfl
  | x :: xs => by
    have ih := splitChar_append_replicate c k xs
    obtain ⟨h2, t2, hsp2⟩ := splitChar_exists_cons c xs
    have hsp1 : splitChar c (xs ++ List.replicate k c)
        = h2 :: (t2 ++ List.replicate k []) := by
      rw [ih, hsp2]
      rfl
    by_cases hx : x = c
    · rw [hx]
      rw [List.cons_append, splitChar_cons_of_eq c _ _ _ hsp1,
        splitChar_cons_of_eq c _ _ _ hsp2]
      rfl
    · rw [List.cons_append, splitChar_cons_of_ne c x _ hx _ _ hsp1,
        splitChar_cons_of_ne c x _ hx _ _ hsp2]
      rfl

lemma takeWhile_beq_eq_replicate (c : Char) (l : List Char) :
    l.takeWhile (fun x => x == c)
      = List.replicate (l.takeWhile (fun x => x == c)).length c :=
  List.eq_replicate_of_mem (fun b hb => by simpa using List.mem_takeWhile_imp hb)

lemma dropWhile_decomp (c : Char) (l : List Char) :
    l = List.replicate (l.takeWhile (fun x => x == c)).length c
        ++ l.dropWhile (fun x => x == c) := by
  have h := List.takeWhile_append_dropWhile (fun x => x == c) (l := l)
  nth_rewrite 1 [← h]
  rw [← takeWhile_beq_eq_replicate]

lemma strip_decomp (c : Char) (l : List Char) :
    ∃ k1 k2, l = List.replicate k1 c ++ stripChar c l ++ List.replicate k2 c := by
  refine ⟨(l.takeWhile (fun x => x == c)).length,
    ((l.dropWhile (fun x => x == c)).reverse.takeWhile (fun x => x == c)).length, ?_⟩
  set d := l.dropWhile (fun x => x == c) with hd
  have h1 : l = List.replicate (l.takeWhile (fun x => x == c)).length c ++ d :=
    dropWhile_decomp c l
  have h2 : d.reverse = List.replicate (d.reverse.takeWhile (fun x => x == c)).length c
      ++ d.reverse.dropWhile (fun x => x == c) := dropWhile_decomp c d.reverse
  have h3 : d = stripChar c l ++ List.replicate
      (d.reverse.takeWhile (fun x => x == c)).length c := by
    have h4 := congrArg List.reverse h2
    simpa [stripChar, List.reverse_append] using h4
  rw [List.append_assoc, ← h3]
  exact h1

lemma splitChar_strip (c : Char) (l : List Char) :
    ∃ k1 k2, splitChar c l
      = List.replicate k1 ([] : List Char) ++ splitChar c (stripChar c l)
        ++ List.replicate k2 ([] : List Char) := by
  obtain ⟨k1, k2, hdc⟩ := strip_decomp c l
  refine ⟨k1, k2, ?_⟩
  nth_rewrite 1 [hdc]
  rw [List.append_assoc, splitChar_replicate_append, splitChar_append_replicate,
    List.append_assoc]

lemma filter_replicate_nil (n : Nat) :
    (List.replicate n ([] : List Char)).filter (fun seg => !seg.isEmpty) = [] := by
  induction n with
  | zero => rfl
  | succ k ih => simp [List.replicate_succ, ih]

/-- When the slash-stripped path splits with no empty segment left, the
non-empty segments of the raw path are exactly the segments of the
stripped path. -/
lemma filter_nonempty_eq_strip (c : Char) (l : List Char)
    (h : ([] : List Char) ∉ splitChar c (stripChar c l)) :
    (splitChar c l).filter (fun seg => !seg.isEmpty)
      = splitChar c (stripChar c l) := by
  obtain ⟨k1, k2, hdc⟩ := splitChar_strip c l
  rw [hdc, List.filter_append, List.filter_append, filter_replicate_nil,
    filter_replicate_nil, List.append_nil, List.nil_append]
  refine List.filter_eq_self.2 (fun a ha => ?_)
  have hne : a ≠ [] := fun hcon => h (hcon ▸ ha)
  simpa [List.isEmpty_iff] using hne

/-- C5 counterexample: on a URL-shaped string whose path has an empty
interior segment, `parse_github_url` returns the first two raw segments of
the slash-stripped path — here `("a", "")` — not the first two non-empty
segments `("a", "b")` that the spec's Reference Resolver contract
demands. -/
theorem parse_github_url_empty_segment_counterexample :
    parse_github_url "https://github.com/a//b" = Except.ok ("a", "")
    ∧ referenceResolverSpec "https://github.com/a//b" = Except.ok ("a", "b")
    ∧ (("a", "") : String × String) ≠ ("a", "b") :=
  ⟨rfl, rfl, by decide⟩

/-- C5 (amended): for every URL-shaped string whose slash-stripped path
splits into segments none of which is empty (no `//` inside the path),
`parse_github_url` agrees exactly with the spec-worded Reference Resolver:
it returns the first two non-empty path segments when at least two exist
and raises `ValueError` otherwise; the resolver is pure, with no network
access. -/
theorem parse_github_url_matches_resolver_spec (u : String)
    (h : ([] : List Char) ∉ splitChar '/' (stripChar '/' (urlPathChars u.data))) :
    parse_github_url u = referenceResolverSpec u := by
  simp only [parse_github_url, referenceResolverSpec, nonEmptySegments]
  rw [filter_nonempty_eq_strip '/' (urlPathChars u.data) h]

theorem parse_github_url_matches_resolver_spec_witness :
    parse_github_url "https://github.com/martinmagala/repo2prompt"
      = referenceResolverSpec "https://github.com/martinmagala/repo2prompt"
    ∧ parse_github_url "https://github.com/martinmagala/repo2prompt"
      = Except.ok ("martinmagala", "repo2prompt") :=
  ⟨parse_github_url_matches_resolver_spec _ (by decide), rfl⟩

end Repo2Prompt
